import Mathlib

/-!
Shallow embedding of the OpenSpeaks Subtitler timeline interaction engine
and subtitle interval model.

Times are modelled as rationals (`ℚ`): the source manipulates JS numbers
exclusively through `+`, `-`, `*`, `/`, `Math.max`, `Math.min`,
`Math.floor` and comparisons, all of which are modelled exactly on `ℚ`.
Each definition is translated from one named function of the source:
- `handleTimeChange` from `SubtitleWorkspace.tsx` lines 89-106
  (identical code in `SubtitleEditor.tsx` lines 49-66);
- `handleSubtitleUpdate`, `handleSubtitleDelete`, `handleSubtitleCreate`
  from the `Subtitler` component;
- `handleTextKeyDown` from `SubtitleWorkspace.tsx` lines 117-125;
- `handleTimelineDoubleClick` and the drag `handleMouseMove` from the
  `Timeline` component in `SubtitleEditor.tsx`;
- the export generators from `ExportPanel.tsx`.
-/

namespace Subtitler

/-- A subtitle interval: the sole entity of the data model
(`interface Subtitle` in every component file). The opaque string id is
modelled as a `Nat`. -/
structure Subtitle where
  id : Nat
  startTime : ℚ
  endTime : ℚ
  text : String
deriving DecidableEq, Repr

/-- Which time field a text-input edit targets
(the `field : 'startTime' | 'endTime'` argument of `handleTimeChange`). -/
inductive TimeField where
  | startTime
  | endTime
deriving DecidableEq, Repr

/-- Translation of `handleTimeChange` (`SubtitleWorkspace.tsx` 89-106 and,
identically, `SubtitleEditor.tsx` 49-66), applied to the already-parsed
new time value.  The source sets the edited field to `newTime` and then,
"to ensure start time is before end time", pushes the other boundary:
if the new start reaches or passes the end, `endTime := newTime + 1`;
if the new end reaches or passes the start,
`startTime := max 0 (newTime - 1)`. -/
def handleTimeChange (field : TimeField) (newTime : ℚ) (sub : Subtitle) :
    Subtitle :=
  match field with
  | .startTime =>
      if sub.endTime ≤ newTime then
        { sub with startTime := newTime, endTime := newTime + 1 }
      else
        { sub with startTime := newTime }
  | .endTime =>
      if newTime ≤ sub.startTime then
        { sub with endTime := newTime, startTime := max 0 (newTime - 1) }
      else
        { sub with endTime := newTime }

/-- Translation of `handleTextChange`: only the text field changes. -/
def handleTextChange (text : String) (sub : Subtitle) : Subtitle :=
  { sub with text := text }

/-- Translation of the JS stable ascending sort
`subtitles.sort((a, b) => a.startTime - b.startTime)` (used by
`handleSubtitleCreate` and by every export generator). -/
def sortByStart (l : List Subtitle) : List Subtitle :=
  List.insertionSort (fun a b => a.startTime ≤ b.startTime) l

/-- Translation of `handleSubtitleUpdate` (`Subtitler`, lines 425-430 of
`SubtitleWorkspace.tsx`): replace the subtitle with the matching id. -/
def handleSubtitleUpdate (subs : List Subtitle) (s : Subtitle) :
    List Subtitle :=
  subs.map (fun sub => if sub.id = s.id then s else sub)

/-- Result of a creation request: the new store contents and the new
selection, as set by `handleSubtitleCreate`. -/
structure CreateResult where
  subtitles : List Subtitle
  selected : Option Subtitle
deriving DecidableEq, Repr

/-- Translation of `handleSubtitleCreate` (`Subtitler`, lines 439-448 of
`SubtitleWorkspace.tsx`): build a new subtitle with the caller-supplied
times and empty text (the `Date.now()` id is modelled as the `freshId`
argument), append it, sort by ascending start time, and select it.
There is no validation and no minimum-duration adjustment. -/
def handleSubtitleCreate (freshId : Nat) (subs : List Subtitle)
    (startTime endTime : ℚ) : CreateResult :=
  let newSubtitle : Subtitle :=
    { id := freshId, startTime := startTime, endTime := endTime, text := "" }
  { subtitles := sortByStart (subs ++ [newSubtitle])
    selected := some newSubtitle }

/-- Translation of `handleTextKeyDown` (`SubtitleWorkspace.tsx` 117-125):
pressing Enter while editing text creates a new subtitle starting at the
current subtitle's end time with the 3-second default duration. -/
def handleTextKeyDown (freshId : Nat) (subs : List Subtitle)
    (localSubtitle : Subtitle) : CreateResult :=
  handleSubtitleCreate freshId subs localSubtitle.endTime
    (localSubtitle.endTime + 3)

/-- Translation of the hit test
`subtitles.find(sub => clickTime >= sub.startTime && clickTime <= sub.endTime)`
used by `handleTimelineClick` and `handleTimelineDoubleClick`. -/
def containsTime (subs : List Subtitle) (t : ℚ) : Bool :=
  subs.any (fun sub => decide (sub.startTime ≤ t) && decide (t ≤ sub.endTime))

/-- Translation of the `lastEndTime` computation of
`handleTimelineDoubleClick`: `Math.max` over the end times of the
subtitles ending at or before the click time, `0` if there are none. -/
def lastEndTime (subs : List Subtitle) (t : ℚ) : ℚ :=
  match (subs.filter (fun sub => decide (sub.endTime ≤ t))).map
      (fun sub => sub.endTime) with
  | [] => 0
  | e :: es => es.foldl max e

/-- Translation of the `nextStartTime` computation of
`handleTimelineDoubleClick`: `Math.min` over the start times of the
subtitles starting at or after the click time, the media `duration` if
there are none. -/
def nextStartTime (subs : List Subtitle) (duration t : ℚ) : ℚ :=
  match (subs.filter (fun sub => decide (t ≤ sub.startTime))).map
      (fun sub => sub.startTime) with
  | [] => duration
  | s :: ss => ss.foldl min s

/-- Translation of `handleTimelineDoubleClick` (`SubtitleEditor.tsx`
295-326). Returns the `(startTime, endTime)` pair passed to
`onSubtitleCreate`, or `none` when nothing is created (double-click on an
existing subtitle, or no room: `endTime ≤ startTime`). -/
def handleTimelineDoubleClick (subs : List Subtitle) (duration t : ℚ) :
    Option (ℚ × ℚ) :=
  if containsTime subs t then none
  else
    let startTime := max t (lastEndTime subs t)
    let endTime := min (min (startTime + 3) (nextStartTime subs duration t))
      duration
    if startTime < endTime then some (startTime, endTime) else none

/-- The three drag gestures of the `Timeline` component. -/
inductive DragType where
  | move
  | resizeLeft
  | resizeRight
deriving DecidableEq, Repr

/-- Translation of one iteration of `handleMouseMove` (`SubtitleEditor.tsx`
328-364). `dragStartTime` is the anchor captured at mouse-down
(the subtitle's start time for move / resize-left, its end time for
resize-right), `deltaTime` the pointer displacement converted to seconds,
and `dragSubtitle` the current dragged subtitle. -/
def handleMouseMove (dragType : DragType) (dragStartTime deltaTime : ℚ)
    (dragSubtitle : Subtitle) : Subtitle :=
  match dragType with
  | .move =>
      let newStartTime := max 0 (dragStartTime + deltaTime)
      let duration := dragSubtitle.endTime - dragSubtitle.startTime
      { dragSubtitle with startTime := newStartTime
                          endTime := newStartTime + duration }
  | .resizeLeft =>
      let newStartTime :=
        max 0 (min (dragStartTime + deltaTime) (dragSubtitle.endTime - 1/10))
      { dragSubtitle with startTime := newStartTime }
  | .resizeRight =>
      let newEndTime :=
        max (dragSubtitle.startTime + 1/10) (dragStartTime + deltaTime)
      { dragSubtitle with endTime := newEndTime }

/-- A sequence of drag pointer-move events, each one a
`(dragType, anchor, delta)` triple, applied in order through
`handleMouseMove` (the source feeds each computed subtitle back into the
drag state via `setDragSubtitle`). -/
def applyDragEvents (events : List (DragType × ℚ × ℚ)) (sub : Subtitle) :
    Subtitle :=
  events.foldl (fun s ev => handleMouseMove ev.1 ev.2.1 ev.2.2 s) sub

/-- A sequence of move-drag events sharing one anchor, as produced by a
single move gesture. -/
def applyMoveDeltas (anchor : ℚ) (deltas : List ℚ) (sub : Subtitle) :
    Subtitle :=
  deltas.foldl (fun s d => handleMouseMove DragType.move anchor d s) sub

/-- Translation of the auto-scroll effect (`SubtitleEditor.tsx` 263-267):
the new `viewStart` after one playhead-time update. -/
def autoScrollViewStart ( dragging : Bool) (currentTime viewStart
    viewDuration : ℚ) : ℚ :=
  if dragging = false ∧
      (currentTime < viewStart ∨ viewStart + viewDuration < currentTime) then
    max 0 (currentTime - viewDuration / 2)
  else viewStart

/-- The per-interval store invariant stated by the specification:
non-negative start and at least the minimum duration ε = 0.1 s. -/
abbrev IntervalInvariant (sub : Subtitle) : Prop :=
  0 ≤ sub.startTime ∧ 1/10 ≤ sub.endTime - sub.startTime

/-- Truncation toward zero, as performed by the JS `%` operator on the
quotient. -/
def qtrunc (a : ℚ) : ℤ :=
  if 0 ≤ a then ⌊a⌋ else ⌈a⌉

/-- The JS remainder operator `a % b`: `a - b * trunc (a / b)`. -/
def jsMod (a b : ℚ) : ℚ :=
  a - b * (qtrunc (a / b) : ℚ)

/-- The JS `String.prototype.padStart(n, '0')`. -/
def padZeros (n : Nat) (s : String) : String :=
  String.mk (List.replicate (n - s.length) '0') ++ s

/-- Translation of `formatTime` from `ExportPanel.tsx` (lines 26-37):
hours, minutes, whole seconds and milliseconds, zero-padded, with a comma
separator for SRT and a period for VTT. -/
def formatTime (seconds : ℚ) (srt : Bool) : String :=
  let hours := ⌊seconds / 3600⌋
  let minutes := ⌊jsMod seconds 3600 / 60⌋
  let secs := ⌊jsMod seconds 60⌋
  let milliseconds := ⌊jsMod seconds 1 * 1000⌋
  let sep := if srt then "," else "."
  padZeros 2 (toString hours) ++ ":" ++ padZeros 2 (toString minutes) ++ ":"
    ++ padZeros 2 (toString secs) ++ sep ++ padZeros 3 (toString milliseconds)

/-- Translation of `generateSRT` (`ExportPanel.tsx` 39-46). The JS
`Array.prototype.sort` sorts the `subtitles` array in place, so the
generator returns both the produced string and the collection as it is
left after the call. -/
def generateSRT (subtitles : List Subtitle) : String × List Subtitle :=
  let sorted := sortByStart subtitles
  (String.intercalate "\n" (sorted.enum.map (fun p =>
      toString (p.1 + 1) ++ "\n" ++ formatTime p.2.startTime true ++ " --> "
        ++ formatTime p.2.endTime true ++ "\n" ++ p.2.text ++ "\n")),
    sorted)

/-- Translation of `generateVTT` (`ExportPanel.tsx` 48-57), with the same
in-place-sort convention as `generateSRT`. -/
def generateVTT (subtitles : List Subtitle) : String × List Subtitle :=
  let sorted := sortByStart subtitles
  let subtitleContent := String.intercalate "\n" (sorted.map (fun sub =>
      formatTime sub.startTime false ++ " --> " ++ formatTime sub.endTime false
        ++ "\n" ++ sub.text ++ "\n"))
  ("WEBVTT\n\n" ++ subtitleContent, sorted)

/-- Translation of `generatePlainText` (`ExportPanel.tsx` 59-65), with the
same in-place-sort convention as `generateSRT`. -/
def generatePlainText (subtitles : List Subtitle) : String × List Subtitle :=
  let sorted := sortByStart subtitles
  (String.intercalate "\n"
      ((sorted.map (fun sub => sub.text)).filter
        (fun text => !text.trim.isEmpty)),
    sorted)

/-- Translation of `generatePlainTextWithTime` (`ExportPanel.tsx` 67-76),
with the same in-place-sort convention as `generateSRT`. An entry is kept
when it contains a newline (it always does) and the line after the
timestamp line is nonempty once trimmed. -/
def generatePlainTextWithTime (subtitles : List Subtitle) :
    String × List Subtitle :=
  let sorted := sortByStart subtitles
  let entries := sorted.map (fun sub =>
    "[" ++ formatTime sub.startTime true ++ " --> "
      ++ formatTime sub.endTime true ++ "]\n" ++ sub.text)
  (String.intercalate "\n\n" (entries.filter (fun entry =>
      let parts := entry.splitOn "\n"
      decide (2 ≤ parts.length) && !(parts.getD 1 "").trim.isEmpty)),
    sorted)

/-! Helper lemmas about the `Math.max` / `Math.min` folds used by the
gap-fill computation. -/

theorem le_foldl_max (l : List ℚ) : ∀ (a x : ℚ), x ∈ a :: l → x ≤ l.foldl max a := by
  induction l with
  | nil =>
      intro a x hx
      rw [List.mem_singleton] at hx
      subst hx
      simp
  | cons b bs ih =>
      intro a x hx
      rw [List.foldl_cons]
      rcases List.mem_cons.mp hx with hx | hx
      · subst hx
        exact le_trans (le_max_left _ _) (ih _ _ (List.mem_cons_self _ _))
      · rcases List.mem_cons.mp hx with hx | hx
        · subst hx
          exact le_trans (le_max_right _ _) (ih _ _ (List.mem_cons_self _ _))
        · exact ih _ _ (List.mem_cons_of_mem _ hx)

theorem foldl_max_mem (l : List ℚ) : ∀ (a : ℚ), l.foldl max a ∈ a :: l := by
  induction l with
  | nil => intro a; simp
  | cons b bs ih =>
      intro a
      rw [List.foldl_cons]
      have h := ih (max a b)
      rcases List.mem_cons.mp h with h | h
      · rw [h]
        rcases max_choice a b with hab | hab <;> rw [hab] <;> simp
      · exact List.mem_cons_of_mem _ (List.mem_cons_of_mem _ h)

theorem foldl_min_le (l : List ℚ) : ∀ (a x : ℚ), x ∈ a :: l → l.foldl min a ≤ x := by
  induction l with
  | nil =>
      intro a x hx
      rw [List.mem_singleton] at hx
      subst hx
      simp
  | cons b bs ih =>
      intro a x hx
      rw [List.foldl_cons]
      rcases List.mem_cons.mp hx with hx | hx
      · subst hx
        exact le_trans (ih _ _ (List.mem_cons_self _ _)) (min_le_left _ _)
      · rcases List.mem_cons.mp hx with hx | hx
        · subst hx
          exact le_trans (ih _ _ (List.mem_cons_self _ _)) (min_le_right _ _)
        · exact ih _ _ (List.mem_cons_of_mem _ hx)

theorem foldl_min_mem (l : List ℚ) : ∀ (a : ℚ), l.foldl min a ∈ a :: l := by
  induction l with
  | nil => intro a; simp
  | cons b bs ih =>
      intro a
      rw [List.foldl_cons]
      have h := ih (min a b)
      rcases List.mem_cons.mp h with h | h
      · rw [h]
        rcases min_choice a b with hab | hab <;> rw [hab] <;> simp
      · exact List.mem_cons_of_mem _ (List.mem_cons_of_mem _ h)

/-- Every subtitle ending at or before the click time bounds `lastEndTime`
from below: `lastEndTime` is an upper bound of the eligible end times. -/
theorem le_lastEndTime (subs : List Subtitle) (t : ℚ) (sub : Subtitle)
    (hm : sub ∈ subs) (h : sub.endTime ≤ t) : sub.endTime ≤ lastEndTime subs t := by
  unfold lastEndTime
  have hmem : sub.endTime ∈ (subs.filter (fun s => decide (s.endTime ≤ t))).map
      (fun s => s.endTime) :=
    List.mem_map_of_mem _ (List.mem_filter.mpr ⟨hm, by simpa using h⟩)
  split
  · simp_all
  · rename_i e es heq
    rw [heq] at hmem
    exact le_foldl_max _ _ _ hmem

/-- The `lastEndTime` computation yields `0` or the end time of some
subtitle ending at or before the click time. -/
theorem lastEndTime_cases (subs : List Subtitle) (t : ℚ) :
    lastEndTime subs t = 0 ∨
      ∃ sub, sub ∈ subs ∧ sub.endTime ≤ t ∧ lastEndTime subs t = sub.endTime := by
  unfold lastEndTime
  split
  · exact Or.inl rfl
  · rename_i e es heq
    refine Or.inr ?_
    have hmem : es.foldl max e ∈
        (subs.filter (fun s => decide (s.endTime ≤ t))).map (fun s => s.endTime) := by
      rw [heq]; exact foldl_max_mem _ _
    rcases List.mem_map.mp hmem with ⟨sub, hsub, hval⟩
    rcases List.mem_filter.mp hsub with ⟨hin, hcond⟩
    exact ⟨sub, hin, by simpa using hcond, hval.symm⟩

/-- Every subtitle starting at or after the click time bounds
`nextStartTime` from above. -/
theorem nextStartTime_le (subs : List Subtitle) (duration t : ℚ)
    (sub : Subtitle) (hm : sub ∈ subs) (h : t ≤ sub.startTime) :
    nextStartTime subs duration t ≤ sub.startTime := by
  unfold nextStartTime
  have hmem : sub.startTime ∈ (subs.filter (fun s => decide (t ≤ s.startTime))).map
      (fun s => s.startTime) :=
    List.mem_map_of_mem _ (List.mem_filter.mpr ⟨hm, by simpa using h⟩)
  split
  · simp_all
  · rename_i s ss heq
    rw [heq] at hmem
    exact foldl_min_le _ _ _ hmem

/-- The `nextStartTime` computation yields the media duration or the start
time of some subtitle starting at or after the click time. -/
theorem nextStartTime_cases (subs : List Subtitle) (duration t : ℚ) :
    nextStartTime subs duration t = duration ∨
      ∃ sub, sub ∈ subs ∧ t ≤ sub.startTime ∧
        nextStartTime subs duration t = sub.startTime := by
  unfold nextStartTime
  split
  · exact Or.inl rfl
  · rename_i s ss heq
    refine Or.inr ?_
    have hmem : ss.foldl min s ∈
        (subs.filter (fun x => decide (t ≤ x.startTime))).map
          (fun x => x.startTime) := by
      rw [heq]; exact foldl_min_mem _ _
    rcases List.mem_map.mp hmem with ⟨sub, hsub, hval⟩
    rcases List.mem_filter.mp hsub with ⟨hin, hcond⟩
    exact ⟨sub, hin, by simpa using hcond, hval.symm⟩

/-- When the hit test fails, no subtitle's span contains the click time. -/
theorem containsTime_eq_false (subs : List Subtitle) (t : ℚ)
    (h : containsTime subs t = false) (sub : Subtitle) (hm : sub ∈ subs) :
    t < sub.startTime ∨ sub.endTime < t := by
  unfold containsTime at h
  rw [List.any_eq_false] at h
  have := h sub hm
  simp only [Bool.and_eq_true, decide_eq_true_eq, not_and, not_le] at this
  rcases le_or_lt sub.startTime t with hle | hlt
  · exact Or.inr (this hle)
  · exact Or.inl hlt

/-- Every single drag pointer-move event preserves the per-interval
invariant, whatever the gesture type, anchor and delta. -/
theorem handleMouseMove_invariant (ty : DragType) (anchor delta : ℚ)
    (sub : Subtitle) (h : IntervalInvariant sub) :
    IntervalInvariant (handleMouseMove ty anchor delta sub) := by
  obtain ⟨hs, hd⟩ := h
  cases ty with
  | move =>
      constructor
      · exact le_max_left _ _
      · simp only [handleMouseMove]
        linarith
  | resizeLeft =>
      constructor
      · exact le_max_left _ _
      · simp only [handleMouseMove]
        have h1 : min (anchor + delta) (sub.endTime - 1/10) ≤ sub.endTime - 1/10 :=
          min_le_right _ _
        have h2 : (0 : ℚ) ≤ sub.endTime - 1/10 := by linarith
        have h3 : max 0 (min (anchor + delta) (sub.endTime - 1/10)) ≤
            sub.endTime - 1/10 := max_le h2 h1
        linarith
  | resizeRight =>
      constructor
      · exact hs
      · simp only [handleMouseMove]
        have h1 : sub.startTime + 1/10 ≤
            max (sub.startTime + 1/10) (anchor + delta) := le_max_left _ _
        linarith

/-- The invariant is preserved by any sequence of drag events. -/
theorem applyDragEvents_invariant (events : List (DragType × ℚ × ℚ)) :
    ∀ sub : Subtitle, IntervalInvariant sub →
      IntervalInvariant (applyDragEvents events sub) := by
  induction events with
  | nil => intro sub h; exact h
  | cons ev evs ih =>
      intro sub h
      exact ih _ (handleMouseMove_invariant ev.1 ev.2.1 ev.2.2 sub h)

/-- A sequence of move events preserves the duration exactly and, once
nonempty or started from a non-negative start time, keeps the start time
non-negative. -/
theorem applyMoveDeltas_spec (anchor : ℚ) (deltas : List ℚ) :
    ∀ sub : Subtitle, 0 ≤ sub.startTime →
      0 ≤ (applyMoveDeltas anchor deltas sub).startTime ∧
        (applyMoveDeltas anchor deltas sub).endTime -
            (applyMoveDeltas anchor deltas sub).startTime =
          sub.endTime - sub.startTime := by
  induction deltas with
  | nil => intro sub hs; exact ⟨hs, rfl⟩
  | cons d ds ih =>
      intro sub hs
      have hstep : 0 ≤ (handleMouseMove DragType.move anchor d sub).startTime :=
        le_max_left _ _
      have hdur : (handleMouseMove DragType.move anchor d sub).endTime -
          (handleMouseMove DragType.move anchor d sub).startTime =
            sub.endTime - sub.startTime := by
        simp only [handleMouseMove]
        ring
      obtain ⟨h1, h2⟩ := ih (handleMouseMove DragType.move anchor d sub) hstep
      refine ⟨h1, ?_⟩
      rw [applyMoveDeltas] at h2 ⊢
      rw [List.foldl_cons]
      rw [h2, hdur]

/-- C3 (counterexample): a programmatic create call with
`endTime = 3 ≤ 5 = startTime` does not fail — the inverted interval is
added to the store — and a create with duration `1/20 < ε` stores the
requested end time without any ε-expansion. -/
theorem c3_counterexample :
    (⟨7, 5, 3, ""⟩ : Subtitle) ∈ (handleSubtitleCreate 7 [] 5 3).subtitles ∧
    (handleSubtitleCreate 8 [] 0 (1/20)).subtitles = [⟨8, 0, 1/20, ""⟩] := by
  constructor
  · norm_num [handleSubtitleCreate, sortByStart, List.insertionSort,
      List.orderedInsert]
  · norm_num [handleSubtitleCreate, sortByStart, List.insertionSort,
      List.orderedInsert]

/-- C3 (amended): `create` never fails and applies no minimum-duration
correction: it unconditionally inserts an interval carrying exactly the
requested `startTime` and `endTime` (with empty text) and re-sorts the
store by ascending start time, so the new store is a permutation of the
old store plus the new interval. -/
theorem c3_create_amended (freshId : Nat) (subs : List Subtitle) (s e : ℚ) :
    (handleSubtitleCreate freshId subs s e).subtitles =
        sortByStart (subs ++ [(⟨freshId, s, e, ""⟩ : Subtitle)]) ∧
      List.Perm (handleSubtitleCreate freshId subs s e).subtitles
        ((⟨freshId, s, e, ""⟩ : Subtitle) :: subs) := by
  constructor
  · rfl
  · exact (List.perm_insertionSort _ _).trans (List.perm_append_singleton _ _)

/-- C10: after every creation request the newly created interval — with
exactly the caller-supplied `startTime` and `endTime` and empty text —
becomes the selected interval, and it is present in the stored
collection. -/
theorem c10_create_selects_new (freshId : Nat) (subs : List Subtitle)
    (s e : ℚ) :
    (handleSubtitleCreate freshId subs s e).selected =
        some { id := freshId, startTime := s, endTime := e, text := "" } ∧
      { id := freshId, startTime := s, endTime := e, text := "" } ∈
        (handleSubtitleCreate freshId subs s e).subtitles := by
  constructor
  · rfl
  · have hperm : List.Perm
        (List.insertionSort (fun a b => a.startTime ≤ b.startTime)
          (subs ++ [{ id := freshId, startTime := s, endTime := e, text := "" }]))
        (subs ++ [{ id := freshId, startTime := s, endTime := e, text := "" }]) :=
      List.perm_insertionSort _ _
    exact hperm.mem_iff.mpr (List.mem_append_right _ (List.mem_singleton.mpr rfl))

/-- C9 (counterexample): generating an SRT export with the stored
collection `[(1, 2.5, "Hi"), (0, 1, "Hello")]` does not leave the stored
collection unchanged — the JS in-place sort reorders it. -/
theorem c9_counterexample :
    ¬((generateSRT [⟨1, 1, 5/2, "Hi"⟩, ⟨2, 0, 1, "Hello"⟩]).2 =
      [⟨1, 1, 5/2, "Hi"⟩, ⟨2, 0, 1, "Hello"⟩]) := by
  norm_num [generateSRT, sortByStart, List.insertionSort, List.orderedInsert,
    Subtitle.mk.injEq]

/-- C9 (amended): every export generator computes its output from the
interval collection and, as its only effect on the store, sorts the stored
collection in place by ascending start time: the resulting collection is
exactly the sorted collection, hence a permutation of (the same multiset
as) the original, but its element order may change. -/
theorem c9_export_amended (subs : List Subtitle) :
    ((generateSRT subs).2 = sortByStart subs ∧
      List.Perm (generateSRT subs).2 subs) ∧
    ((generateVTT subs).2 = sortByStart subs ∧
      List.Perm (generateVTT subs).2 subs) ∧
    ((generatePlainText subs).2 = sortByStart subs ∧
      List.Perm (generatePlainText subs).2 subs) ∧
    ((generatePlainTextWithTime subs).2 = sortByStart subs ∧
      List.Perm (generatePlainTextWithTime subs).2 subs) :=
  ⟨⟨rfl, List.perm_insertionSort _ _⟩, ⟨rfl, List.perm_insertionSort _ _⟩,
    ⟨rfl, List.perm_insertionSort _ _⟩, ⟨rfl, List.perm_insertionSort _ _⟩⟩

/-- C6: a move-drag pointer event with any delta sets the new start time
to `max 0 (anchor + delta)` and the new end time to the new start time
plus the pre-event duration, so the start time is non-negative and the
duration is unchanged — exactly, in particular within 1e-6 s — and the
same holds after a whole sequence of move events. -/
theorem c6_move_drag (sub : Subtitle) (anchor delta : ℚ) (deltas : List ℚ)
    (hs : 0 ≤ sub.startTime) :
    (handleMouseMove DragType.move anchor delta sub).startTime =
        max 0 (anchor + delta) ∧
    (handleMouseMove DragType.move anchor delta sub).endTime =
        (handleMouseMove DragType.move anchor delta sub).startTime +
          (sub.endTime - sub.startTime) ∧
    0 ≤ (handleMouseMove DragType.move anchor delta sub).startTime ∧
    |((handleMouseMove DragType.move anchor delta sub).endTime -
          (handleMouseMove DragType.move anchor delta sub).startTime) -
        (sub.endTime - sub.startTime)| ≤ 1/1000000 ∧
    0 ≤ (applyMoveDeltas anchor deltas sub).startTime ∧
    (applyMoveDeltas anchor deltas sub).endTime -
        (applyMoveDeltas anchor deltas sub).startTime =
      sub.endTime - sub.startTime := by
  obtain ⟨h1, h2⟩ := applyMoveDeltas_spec anchor deltas sub hs
  refine ⟨rfl, ?_, le_max_left _ _, ?_, h1, h2⟩
  · simp only [handleMouseMove]
  · have hzero : ((handleMouseMove DragType.move anchor delta sub).endTime -
        (handleMouseMove DragType.move anchor delta sub).startTime) -
          (sub.endTime - sub.startTime) = 0 := by
      simp only [handleMouseMove]
      ring
    rw [hzero]
    norm_num

/-- C6 (witness): the move theorem instantiated on the interval
`[0, 1]` with anchor 0, delta 5 and the two-event delta list `[5, -7]`. -/
theorem c6_move_drag_witness :
    0 ≤ (⟨0, 0, 1, ""⟩ : Subtitle).startTime ∧
    (applyMoveDeltas 0 [5, -7] ⟨0, 0, 1, ""⟩).endTime -
        (applyMoveDeltas 0 [5, -7] ⟨0, 0, 1, ""⟩).startTime =
      (⟨0, 0, 1, ""⟩ : Subtitle).endTime - (⟨0, 0, 1, ""⟩ : Subtitle).startTime :=
  ⟨by norm_num, (c6_move_drag ⟨0, 0, 1, ""⟩ 0 5 [5, -7] (by norm_num)).2.2.2.2.2⟩

/-- C7: starting from an interval satisfying the store invariant, every
prefix of any sequence of resize-left / resize-right drag events keeps
`startTime ≥ 0` and `endTime − startTime ≥ 0.1`; moreover resize-left
clamps the new start time to `[0, currentEnd − 0.1]` and resize-right
floors the new end time at `currentStart + 0.1`. -/
theorem c7_resize_invariant (sub : Subtitle)
    (events : List (DragType × ℚ × ℚ)) (hinv : IntervalInvariant sub)
    (hres : ∀ ev ∈ events,
      ev.1 = DragType.resizeLeft ∨ ev.1 = DragType.resizeRight) :
    (∀ n : Nat, IntervalInvariant (applyDragEvents (events.take n) sub)) ∧
    (∀ anchor delta : ℚ,
      (handleMouseMove DragType.resizeLeft anchor delta sub).startTime =
          max 0 (min (anchor + delta) (sub.endTime - 1/10)) ∧
        (handleMouseMove DragType.resizeRight anchor delta sub).endTime =
          max (sub.startTime + 1/10) (anchor + delta)) :=
  ⟨fun _ => applyDragEvents_invariant _ sub hinv,
    fun _ _ => ⟨rfl, rfl⟩⟩

/-- C7 (witness): the resize theorem instantiated on the interval `[0, 1]`
with an extreme resize-left delta followed by an extreme resize-right
delta. -/
theorem c7_resize_invariant_witness :
    IntervalInvariant (⟨0, 0, 1, ""⟩ : Subtitle) ∧
    IntervalInvariant (applyDragEvents
      (([(DragType.resizeLeft, 0, -100), (DragType.resizeRight, 1, -100)] :
        List (DragType × ℚ × ℚ)).take 2) ⟨0, 0, 1, ""⟩) :=
  ⟨by norm_num [IntervalInvariant],
    (c7_resize_invariant ⟨0, 0, 1, ""⟩
      [(DragType.resizeLeft, 0, -100), (DragType.resizeRight, 1, -100)]
      (by norm_num [IntervalInvariant])
      (by
        intro ev hev
        rw [List.mem_cons, List.mem_singleton] at hev
        rcases hev with h | h <;> subst h <;> simp)).1 2⟩

/-- C8: while a drag is in progress a playhead-time update never changes
`viewStart`; when no drag is in progress and the playhead time lies
outside `[viewStart, viewStart + viewDuration]`, `viewStart` becomes
`max 0 (playheadTime − viewDuration / 2)`. -/
theorem c8_autoscroll (dragging : Bool)
    (currentTime viewStart viewDuration : ℚ) :
    (dragging = true →
      autoScrollViewStart dragging currentTime viewStart viewDuration =
        viewStart) ∧
    (dragging = false →
      ¬(viewStart ≤ currentTime ∧ currentTime ≤ viewStart + viewDuration) →
      autoScrollViewStart dragging currentTime viewStart viewDuration =
        max 0 (currentTime - viewDuration / 2)) := by
  constructor
  · intro h
    subst h
    simp [autoScrollViewStart]
  · intro h hout
    subst h
    rw [autoScrollViewStart, if_pos]
    refine ⟨rfl, ?_⟩
    rcases le_or_lt viewStart currentTime with hle | hlt
    · refine Or.inr ?_
      by_contra hcon
      exact hout ⟨hle, le_of_not_lt hcon⟩
    · exact Or.inl hlt

/-- C8 (witness): the auto-scroll theorem instantiated at a playhead time
far outside the view, both during a drag and outside one. -/
theorem c8_autoscroll_witness :
    autoScrollViewStart true 100 0 15 = 0 ∧
    autoScrollViewStart false 100 0 15 = max 0 (100 - 15 / 2) :=
  ⟨(c8_autoscroll true 100 0 15).1 rfl,
    (c8_autoscroll false 100 0 15).2 rfl (by norm_num)⟩

/-- C1 (counterexample): editing the start-time field of the interval
`[0, 1]` to `0.95` (a value the lenient time parser produces from
"00:00:00.950") leaves the stored interval `[0.95, 1]` with duration
`0.05 < ε = 0.1`, so the claimed store invariant fails after a
time-field update. -/
theorem c1_counterexample :
    ¬(0 ≤ (handleTimeChange TimeField.startTime (19/20) ⟨1, 0, 1, ""⟩).startTime ∧
      1/10 ≤ (handleTimeChange TimeField.startTime (19/20) ⟨1, 0, 1, ""⟩).endTime -
        (handleTimeChange TimeField.startTime (19/20) ⟨1, 0, 1, ""⟩).startTime) := by
  norm_num [handleTimeChange]

/-- C1 (amended): drag mutations (move and both resizes) preserve the
invariant `startTime ≥ 0 ∧ endTime − startTime ≥ 0.1`, and text edits do
not touch the times; but a time-field update only guarantees
`startTime ≥ 0` and `startTime ≤ endTime` (given a non-negative parsed
time), not the ε = 0.1 minimum — and `create` stores the requested
endpoints verbatim. -/
theorem c1_invariant_amended (sub : Subtitle) (ty : DragType)
    (anchor delta newTime : ℚ) (field : TimeField) (text : String)
    (hs : 0 ≤ sub.startTime) (hd : 1/10 ≤ sub.endTime - sub.startTime)
    (ht : 0 ≤ newTime) :
    IntervalInvariant (handleMouseMove ty anchor delta sub) ∧
    (0 ≤ (handleTimeChange field newTime sub).startTime ∧
      (handleTimeChange field newTime sub).startTime ≤
        (handleTimeChange field newTime sub).endTime) ∧
    (handleTextChange text sub).startTime = sub.startTime ∧
    (handleTextChange text sub).endTime = sub.endTime := by
  refine ⟨handleMouseMove_invariant ty anchor delta sub ⟨hs, hd⟩, ?_, rfl, rfl⟩
  cases field with
  | startTime =>
      simp only [handleTimeChange]
      split_ifs with hcond
      · exact ⟨ht, (lt_add_one newTime).le⟩
      · push_neg at hcond
        exact ⟨ht, le_of_lt hcond⟩
  | endTime =>
      simp only [handleTimeChange]
      split_ifs with hcond
      · refine ⟨le_max_left _ _, max_le ht (by linarith)⟩
      · push_neg at hcond
        exact ⟨hs, le_of_lt hcond⟩

/-- C1 (witness): the amended invariant theorem instantiated on the
interval `[0, 1]` with a move event and a start-time edit to `2`. -/
theorem c1_invariant_amended_witness :
    0 ≤ (⟨0, 0, 1, ""⟩ : Subtitle).startTime ∧
    1/10 ≤ (⟨0, 0, 1, ""⟩ : Subtitle).endTime - (⟨0, 0, 1, ""⟩ : Subtitle).startTime ∧
    (0 : ℚ) ≤ 2 ∧
    IntervalInvariant (handleMouseMove DragType.move 0 5 ⟨0, 0, 1, ""⟩) ∧
    (handleTimeChange TimeField.startTime 2 ⟨0, 0, 1, ""⟩).startTime ≤
      (handleTimeChange TimeField.startTime 2 ⟨0, 0, 1, ""⟩).endTime :=
  ⟨by norm_num, by norm_num, by norm_num,
    (c1_invariant_amended ⟨0, 0, 1, ""⟩ DragType.move 0 5 2 TimeField.startTime
      "x" (by norm_num) (by norm_num) (by norm_num)).1,
    (c1_invariant_amended ⟨0, 0, 1, ""⟩ DragType.move 0 5 2 TimeField.startTime
      "x" (by norm_num) (by norm_num) (by norm_num)).2.1.2⟩

/-- C2 (counterexample): for the interval `[0, 3]` — pre-change duration
`3`, not degenerate — changing the start time to `5` (which passes the end
time `3`) produces end time `6 = 5 + 1`, not `8 = 5 + 3`: the end time is
not pushed forward by the pre-change duration. -/
theorem c2_counterexample :
    (⟨1, 0, 3, ""⟩ : Subtitle).endTime ≤ 5 ∧
    (⟨1, 0, 3, ""⟩ : Subtitle).endTime - (⟨1, 0, 3, ""⟩ : Subtitle).startTime = 3 ∧
    ¬((handleTimeChange TimeField.startTime 5 ⟨1, 0, 3, ""⟩).endTime = 5 + 3) := by
  norm_num [handleTimeChange]

/-- C2 (amended): when a start-time update reaches or passes the
interval's end time, the end time is pushed to the new start time plus one
second — always one second, regardless of the pre-change duration;
symmetrically, when an end-time update reaches or passes the start time,
the start time is pulled to the new end time minus one second, clamped
at 0. -/
theorem c2_push_pull_amended (sub : Subtitle) (newTime : ℚ) :
    (sub.endTime ≤ newTime →
      (handleTimeChange TimeField.startTime newTime sub).startTime = newTime ∧
        (handleTimeChange TimeField.startTime newTime sub).endTime =
          newTime + 1) ∧
    (newTime ≤ sub.startTime →
      (handleTimeChange TimeField.endTime newTime sub).endTime = newTime ∧
        (handleTimeChange TimeField.endTime newTime sub).startTime =
          max 0 (newTime - 1)) := by
  constructor
  · intro h
    simp only [handleTimeChange]
    rw [if_pos h]
    exact ⟨rfl, rfl⟩
  · intro h
    simp only [handleTimeChange]
    rw [if_pos h]
    exact ⟨rfl, rfl⟩

/-- C2 (witness): the push/pull theorem instantiated on the interval
`[0, 3]` with a start-time edit to `5`. -/
theorem c2_push_pull_amended_witness :
    (⟨1, 0, 3, ""⟩ : Subtitle).endTime ≤ 5 ∧
    (handleTimeChange TimeField.startTime 5 ⟨1, 0, 3, ""⟩).startTime = 5 ∧
    (handleTimeChange TimeField.startTime 5 ⟨1, 0, 3, ""⟩).endTime = 5 + 1 :=
  ⟨by norm_num, (c2_push_pull_amended ⟨1, 0, 3, ""⟩ 5).1 (by norm_num)⟩

/-- C4: on empty timeline space (the hit test fails), a double-click
creates exactly the interval `(max t lastEnd, min (start+3, nextStart,
duration))` when that range is nonempty and silently creates nothing
otherwise; `lastEndTime` is the maximum end time at or before `t` (0 if
none) and `nextStartTime` the minimum start time at or after `t` (the
media duration if none); with intervals `[0,2]` and `[5,8]` and duration
10, clicking at `t = 3` creates `[3,5]` and clicking at `t = 6.5` creates
nothing. -/
theorem c4_gap_fill (subs : List Subtitle) (duration t : ℚ)
    (h : containsTime subs t = false) :
    (∀ s e : ℚ, handleTimelineDoubleClick subs duration t = some (s, e) →
      s = max t (lastEndTime subs t) ∧
        e = min (min (s + 3) (nextStartTime subs duration t)) duration ∧
        s < e) ∧
    (min (min (max t (lastEndTime subs t) + 3) (nextStartTime subs duration t))
          duration ≤ max t (lastEndTime subs t) →
      handleTimelineDoubleClick subs duration t = none) ∧
    (∀ sub ∈ subs, sub.endTime ≤ t → sub.endTime ≤ lastEndTime subs t) ∧
    (lastEndTime subs t = 0 ∨
      ∃ sub, sub ∈ subs ∧ sub.endTime ≤ t ∧ lastEndTime subs t = sub.endTime) ∧
    (∀ sub ∈ subs, t ≤ sub.startTime →
      nextStartTime subs duration t ≤ sub.startTime) ∧
    (nextStartTime subs duration t = duration ∨
      ∃ sub, sub ∈ subs ∧ t ≤ sub.startTime ∧
        nextStartTime subs duration t = sub.startTime) ∧
    handleTimelineDoubleClick [⟨1, 0, 2, ""⟩, ⟨2, 5, 8, ""⟩] 10 3 =
      some (3, 5) ∧
    handleTimelineDoubleClick [⟨1, 0, 2, ""⟩, ⟨2, 5, 8, ""⟩] 10 (13/2) =
      none := by
  refine ⟨?_, ?_, fun sub hm hle => le_lastEndTime subs t sub hm hle,
    lastEndTime_cases subs t,
    fun sub hm hle => nextStartTime_le subs duration t sub hm hle,
    nextStartTime_cases subs duration t, ?_, ?_⟩
  · intro s e heq
    simp only [handleTimelineDoubleClick, h, Bool.false_eq_true, if_false] at heq
    split_ifs at heq with hlt
    · rw [Option.some.injEq, Prod.mk.injEq] at heq
      obtain ⟨hs', he'⟩ := heq
      subst hs'
      subst he'
      exact ⟨rfl, rfl, hlt⟩
  · intro hle
    simp only [handleTimelineDoubleClick, h, Bool.false_eq_true, if_false]
    rw [if_neg (not_lt.mpr hle)]
  · norm_num [handleTimelineDoubleClick, containsTime, lastEndTime,
      nextStartTime, List.any, List.filter]
  · norm_num [handleTimelineDoubleClick, containsTime, lastEndTime,
      nextStartTime, List.any, List.filter]

/-- C4 (witness): the gap-fill theorem instantiated on the stored
intervals `[0,2]` and `[5,8]` with duration 10 and click time 3. -/
theorem c4_gap_fill_witness :
    containsTime [⟨1, 0, 2, ""⟩, ⟨2, 5, 8, ""⟩] 3 = false ∧
    handleTimelineDoubleClick [⟨1, 0, 2, ""⟩, ⟨2, 5, 8, ""⟩] 10 3 =
      some (3, 5) :=
  ⟨by norm_num [containsTime, List.any],
    (c4_gap_fill [⟨1, 0, 2, ""⟩, ⟨2, 5, 8, ""⟩] 10 3
      (by norm_num [containsTime, List.any])).2.2.2.2.2.2.1⟩

/-- C5 (counterexample): "insert after" via the segmenting key while
editing the interval `[0,2]`, with the interval `[3,6]` also stored,
creates the interval `[2,5]`, which overlaps the pre-existing `[3,6]`
(`2 < 6` and `3 < 5`): the insert-after path performs no overlap check. -/
theorem c5_counterexample :
    (handleTextKeyDown 9 [⟨1, 0, 2, ""⟩, ⟨2, 3, 6, ""⟩] ⟨1, 0, 2, ""⟩).selected =
        some ⟨9, 2, 5, ""⟩ ∧
    (⟨9, 2, 5, ""⟩ : Subtitle) ∈
      (handleTextKeyDown 9 [⟨1, 0, 2, ""⟩, ⟨2, 3, 6, ""⟩] ⟨1, 0, 2, ""⟩).subtitles ∧
    (⟨2, 3, 6, ""⟩ : Subtitle) ∈ [(⟨1, 0, 2, ""⟩ : Subtitle), ⟨2, 3, 6, ""⟩] ∧
    (2 : ℚ) < (⟨2, 3, 6, ""⟩ : Subtitle).endTime ∧
    (⟨2, 3, 6, ""⟩ : Subtitle).startTime < 5 := by
  refine ⟨?_, ?_, ?_, by norm_num, by norm_num⟩
  · norm_num [handleTextKeyDown, handleSubtitleCreate]
  · norm_num [handleTextKeyDown, handleSubtitleCreate, sortByStart,
      List.insertionSort, List.orderedInsert]
  · simp

/-- C5 (amended): intervals created by the timeline double-click path
never overlap any pre-existing interval and never extend past the media
duration; the insert-after path, by contrast, applies no such check
(see the counterexample). -/
theorem c5_double_click_amended (subs : List Subtitle) (duration t s e : ℚ)
    (h : handleTimelineDoubleClick subs duration t = some (s, e)) :
    e ≤ duration ∧
      ∀ sub ∈ subs, ¬(s < sub.endTime ∧ sub.startTime < e) := by
  cases hb : containsTime subs t with
  | true =>
      rw [handleTimelineDoubleClick, if_pos hb] at h
      cases h
  | false =>
      simp only [handleTimelineDoubleClick, hb, Bool.false_eq_true,
        if_false] at h
      split_ifs at h with hlt
      · rw [Option.some.injEq, Prod.mk.injEq] at h
        obtain ⟨hs', he'⟩ := h
        subst hs'
        subst he'
        constructor
        · exact min_le_right _ _
        · intro sub hm hover
          obtain ⟨h1, h2⟩ := hover
          rcases containsTime_eq_false subs t hb sub hm with hfar | hfar
          · have hnext : nextStartTime subs duration t ≤ sub.startTime :=
              nextStartTime_le subs duration t sub hm (le_of_lt hfar)
            have he1 : min (min (max t (lastEndTime subs t) + 3)
                (nextStartTime subs duration t)) duration ≤
                  nextStartTime subs duration t :=
              le_trans (min_le_left _ _) (min_le_right _ _)
            linarith
          · have hlast : sub.endTime ≤ lastEndTime subs t :=
              le_lastEndTime subs t sub hm (le_of_lt hfar)
            have hs1 : lastEndTime subs t ≤ max t (lastEndTime subs t) :=
              le_max_right _ _
            linarith

/-- C5 (witness): the double-click non-overlap theorem instantiated on the
stored intervals `[0,2]` and `[5,8]` with duration 10 and click time 3,
which creates `[3,5]`. -/
theorem c5_double_click_amended_witness :
    handleTimelineDoubleClick [⟨1, 0, 2, ""⟩, ⟨2, 5, 8, ""⟩] 10 3 =
        some (3, 5) ∧
    (5 : ℚ) ≤ 10 ∧
    ¬((3 : ℚ) < (⟨1, 0, 2, ""⟩ : Subtitle).endTime ∧
      (⟨1, 0, 2, ""⟩ : Subtitle).startTime < 5) :=
  ⟨by norm_num [handleTimelineDoubleClick, containsTime, lastEndTime,
      nextStartTime, List.any, List.filter],
    (c5_double_click_amended [⟨1, 0, 2, ""⟩, ⟨2, 5, 8, ""⟩] 10 3 3 5
      (by norm_num [handleTimelineDoubleClick, containsTime, lastEndTime,
        nextStartTime, List.any, List.filter])).1,
    (c5_double_click_amended [⟨1, 0, 2, ""⟩, ⟨2, 5, 8, ""⟩] 10 3 3 5
      (by norm_num [handleTimelineDoubleClick, containsTime, lastEndTime,
        nextStartTime, List.any, List.filter])).2
      ⟨1, 0, 2, ""⟩ (by simp)⟩

end Subtitler
